import Mathlib

/-!
Verification of the `doorman` CLI (Go, `doorman.go`) against its
natural-language specification.

The program text is shallowly embedded over `List Char` (Go strings and
`[]byte` values are byte strings; every string the program manipulates is
newline-delimited text, so a character list is a faithful model).  Pure Go
helpers become pure Lean functions; the file-system / stdin / stdout
effects of the reconciler are modelled by explicit state passing over a
`World` record.
-/

namespace Doorman

/-- Model of Go `unicode.IsSpace` restricted to the ASCII + Latin-1
whitespace characters (space, TAB, LF, VT, FF, CR, NEL, NBSP).  The
remaining Unicode `Zs` code points are not representable in any input the
claims mention and are omitted. -/
def isSpace (c : Char) : Bool :=
  c = ' ' || c = '\t' || c = '\n' || c = '\x0B' || c = '\x0C' || c = '\r' ||
  c = '\u0085' || c = ' '

/-- Leading-whitespace trim (the left half of Go `strings.TrimSpace`). -/
def trimLeft (l : List Char) : List Char :=
  l.dropWhile isSpace

/-- Trailing-whitespace trim (the right half of Go `strings.TrimSpace`). -/
def trimRight : List Char → List Char
  | [] => []
  | c :: cs =>
    match trimRight cs with
    | [] => if isSpace c then [] else [c]
    | l => c :: l

/-- Go `strings.TrimSpace`: drop whitespace from both ends. -/
def trimSpace (l : List Char) : List Char :=
  trimLeft (trimRight l)

/-- Go `strings.Split(s, "\n")`: the list of newline-separated segments of
`s`; the empty string yields one empty segment, like Go's `Split`. -/
def splitLines : List Char → List (List Char)
  | [] => [[]]
  | c :: cs =>
    if c = '\n' then [] :: splitLines cs
    else
      match splitLines cs with
      | [] => [[c]]
      | l :: ls => (c :: l) :: ls

/-- Go `strings.Join(ls, "\n")`. -/
def joinLines : List (List Char) → List Char
  | [] => []
  | [l] => l
  | l :: ls => l ++ '\n' :: joinLines ls

/-- Go `strings.HasSuffix(s, sfx)`: `sfx` equals the final `sfx.length`
characters of `s` (`s[len(s)-len(sfx):] == sfx`, false when `s` is
shorter). -/
def hasSuffix (s sfx : List Char) : Bool :=
  sfx == s.drop (s.length - sfx.length)

/-- The loop body of `appendUsernameToKeys`: trim each line, drop lines
that trim to empty, tag each survivor with `" " + username`. -/
def tagLoop : List (List Char) → List Char → List (List Char)
  | [], _ => []
  | line :: rest, username =>
    let line := trimSpace line
    if 0 < line.length then (line ++ ' ' :: username) :: tagLoop rest username
    else tagLoop rest username

/-- Go `appendUsernameToKeys` (doorman.go:225): trim the whole blob, split
it on newlines, trim each line, drop empty lines, tag each survivor with
the username, and rejoin with newlines. -/
def appendUsernameToKeys (keys username : List Char) : List Char :=
  joinLines (tagLoop (splitLines (trimSpace keys)) username)

/-- The loop body of `removeKeysByUsername`: keep exactly the lines that do
not end with the given suffix. -/
def removeLoop : List (List Char) → List Char → List (List Char)
  | [], _ => []
  | line :: rest, sfx =>
    if hasSuffix line sfx then removeLoop rest sfx
    else line :: removeLoop rest sfx

/-- Go `removeKeysByUsername` (doorman.go:239): split the stored contents
on newlines, drop every line whose suffix is `" " + username`, rejoin with
newlines. -/
def removeKeysByUsername (keys username : List Char) : List Char :=
  joinLines (removeLoop (splitLines keys) (' ' :: username))

/-- Outcome of `bufio.Reader.ReadString`: clean end of input (`io.EOF`) or
any other read error. -/
inductive ReadErr
  | eof
  | other
deriving DecidableEq

/-- The interactive input stream: the bytes still unread, plus whether the
stream reports a genuine I/O error (rather than `io.EOF`) once the bytes
run out without a newline. -/
structure InStream where
  data : List Char
  fails : Bool
deriving DecidableEq

/-- Split off the first line including its `'\n'` terminator; `none` when
the data holds no newline. -/
def splitAtNewline : List Char → Option (List Char × List Char)
  | [] => none
  | c :: cs =>
    if c = '\n' then some ([c], cs)
    else
      match splitAtNewline cs with
      | none => none
      | some (line, rest) => some (c :: line, rest)

/-- `bufio.Reader.ReadString('\n')`: the line read (delimiter included), an
optional error (`io.EOF` or a real failure, with the bytes read so far),
and the remaining stream. -/
def readLine (s : InStream) : (List Char × Option ReadErr) × InStream :=
  match splitAtNewline s.data with
  | some (line, rest) => ((line, none), { s with data := rest })
  | none =>
    ((s.data, some (if s.fails then ReadErr.other else ReadErr.eof)),
     { s with data := [] })

/-- The messages `doorman` writes to stdout, abstracted from their literal
format strings. -/
inductive Msg
  | createPrompt
  | addPrompt
  | removePrompt
  | keysToAdd (block : List Char)
  | keysToRemove (block : List Char)
  | aborted
  | fileMissing
  | usage
  | addedOk
  | removedOk
deriving DecidableEq

/-- The `authorized_keys` file: its contents and its permission bits. -/
structure FileState where
  contents : List Char
  mode : Nat
deriving DecidableEq

/-- The mutable state the program touches: the `authorized_keys` file
(`none` = does not exist), whether `~/.ssh` exists, whether `user.Current`
fails, the stdin stream and the stdout trace. -/
structure World where
  file : Option FileState
  sshDir : Bool
  userErr : Bool
  stdin : InStream
  stdout : List Msg
deriving DecidableEq

/-- Go `promptConfirmation` (doorman.go:119): print the prompt, read one
line from stdin, fail only on a non-`io.EOF` read error, otherwise answer
whether the line, whitespace-trimmed and lowercased, equals `"yes"`. -/
def promptConfirmation (prompt : Msg) (w : World) : Except Unit Bool × World :=
  let r := readLine w.stdin
  let w' := { w with stdout := w.stdout ++ [prompt], stdin := r.2 }
  if r.1.2 = some ReadErr.other then (Except.error (), w')
  else (Except.ok ((trimSpace r.1.1).map Char.toLower == "yes".data), w')

/-- The errors `run` and the reconciler can return, abstracted from their
message strings (wrapping is kept: `addFailed`/`removeFailed` carry the
underlying cause, like `%w` in the source). -/
inductive GoErr
  | usage
  | fetchFailed
  | noKeysFound
  | invalidAction
  | identityFailed
  | promptFailed
  | fileOpenFailed
  | addFailed (e : GoErr)
  | removeFailed (e : GoErr)
deriving DecidableEq

/-- The tail of Go `confirmAndAddKeys` (doorman.go:151-188) after the
create-file gate: display the tagged block, ask to add, on yes ensure
`~/.ssh` exists and either append to the existing file (with a newline
separator when it is non-empty) or create it with mode `0600` and the
tagged block as whole contents.  `fileExists` is the `os.Stat` result the
source captured before prompting. -/
def addAfterCreateGate (keysWithUsername : List Char) (fileExists : Bool) (w : World) :
    Except GoErr Unit × World :=
  let w := { w with stdout := w.stdout ++ [Msg.keysToAdd keysWithUsername] }
  match promptConfirmation Msg.addPrompt w with
  | (Except.error _, w) => (Except.error GoErr.promptFailed, w)
  | (Except.ok false, w) => (Except.ok (), { w with stdout := w.stdout ++ [Msg.aborted] })
  | (Except.ok true, w) =>
    let w := if w.sshDir then w else { w with sshDir := true }
    if fileExists then
      match w.file with
      | none => (Except.error GoErr.fileOpenFailed, w)
      | some f =>
        let newContents :=
          if 0 < f.contents.length then f.contents ++ '\n' :: keysWithUsername
          else f.contents ++ keysWithUsername
        (Except.ok (), { w with file := some { f with contents := newContents } })
    else
      (Except.ok (), { w with file := some { contents := keysWithUsername, mode := 0o600 } })

/-- Go `confirmAndAddKeys` (doorman.go:130): tag the keys, resolve the
path (`user.Current` may fail), and when the file does not exist gate the
rest behind a create-file confirmation (declining is a successful abort). -/
def confirmAndAddKeys (keys username : List Char) (w : World) : Except GoErr Unit × World :=
  let keysWithUsername := appendUsernameToKeys keys username
  if w.userErr then (Except.error GoErr.identityFailed, w)
  else
    match w.file with
    | none =>
      match promptConfirmation Msg.createPrompt w with
      | (Except.error _, w) => (Except.error GoErr.promptFailed, w)
      | (Except.ok false, w) => (Except.ok (), { w with stdout := w.stdout ++ [Msg.aborted] })
      | (Except.ok true, w) => addAfterCreateGate keysWithUsername false w
    | some _ => addAfterCreateGate keysWithUsername true w

/-- Go `confirmAndRemoveKeys` (doorman.go:191): tag the keys for display,
succeed as a no-op when the file does not exist, otherwise display the
block, ask to remove, and on yes rewrite the file with the filtered
contents. -/
def confirmAndRemoveKeys (keys username : List Char) (w : World) : Except GoErr Unit × World :=
  let keysWithUsername := appendUsernameToKeys keys username
  if w.userErr then (Except.error GoErr.identityFailed, w)
  else
    match w.file with
    | none => (Except.ok (), { w with stdout := w.stdout ++ [Msg.fileMissing] })
    | some f =>
      let w := { w with stdout := w.stdout ++ [Msg.keysToRemove keysWithUsername] }
      match promptConfirmation Msg.removePrompt w with
      | (Except.error _, w) => (Except.error GoErr.promptFailed, w)
      | (Except.ok false, w) => (Except.ok (), { w with stdout := w.stdout ++ [Msg.aborted] })
      | (Except.ok true, w) =>
        let newKeys := removeKeysByUsername f.contents username
        (Except.ok (), { w with file := some { f with contents := newKeys } })

/-- Go `run` (doorman.go:42): usage check, fetch the identity's keys
(`fetch` models `httpGet` on the URL built from the username), reject a
whitespace-only blob before anything else, then dispatch on the action. -/
def run (args : List (List Char)) (fetch : List Char → Except Unit (List Char)) (w : World) :
    Except GoErr Unit × World :=
  match args with
  | [_, action, username] =>
    match fetch username with
    | Except.error _ => (Except.error GoErr.fetchFailed, w)
    | Except.ok keys =>
      if (trimSpace keys).length = 0 then (Except.error GoErr.noKeysFound, w)
      else if action = "add".data then
        match confirmAndAddKeys keys username w with
        | (Except.error e, w) => (Except.error (GoErr.addFailed e), w)
        | (Except.ok _, w) => (Except.ok (), { w with stdout := w.stdout ++ [Msg.addedOk] })
      else if action = "remove".data then
        match confirmAndRemoveKeys keys username w with
        | (Except.error e, w) => (Except.error (GoErr.removeFailed e), w)
        | (Except.ok _, w) => (Except.ok (), { w with stdout := w.stdout ++ [Msg.removedOk] })
      else (Except.error GoErr.invalidAction, w)
  | _ => (Except.error GoErr.usage, { w with stdout := w.stdout ++ [Msg.usage] })

/-- Specification-side form of the filter operation, following the spec's
words: split on newlines, retain the lines whose suffix is not
`" " + identity`, rejoin with newlines. -/
def removeSpec (keys username : List Char) : List Char :=
  joinLines ((splitLines keys).filter (fun l => !hasSuffix l (' ' :: username)))

/-- Specification-side line cleaning: split on newlines, trim each line,
discard lines that become empty after trimming. -/
def cleanLines (s : List Char) : List (List Char) :=
  ((splitLines s).map trimSpace).filter (fun l => !l.isEmpty)

/-- Specification-side form of the tag operation, following the spec's
words: split on newlines, trim each line, discard the now-empty lines, tag
each survivor with `" " + identity`, rejoin with newlines. -/
def tagSpec (keys username : List Char) : List Char :=
  joinLines ((cleanLines keys).map (fun l => l ++ ' ' :: username))

/-- The yes/no answer one confirmation prompt extracts from the stream:
`none` when the read fails with a non-`io.EOF` error. -/
def promptAnswer (s : InStream) : Option Bool :=
  if (readLine s).1.2 = some ReadErr.other then none
  else some ((trimSpace (readLine s).1.1).map Char.toLower == "yes".data)

/-- The stream as one confirmation prompt leaves it. -/
def afterPrompt (s : InStream) : InStream := (readLine s).2

/-- The underlying input stream fails: the remaining bytes hold no newline
and exhausting them reports a real error rather than `io.EOF`. -/
def streamFails (s : InStream) : Prop :=
  s.fails = true ∧ splitAtNewline s.data = none

/-- The line a single `ReadString('\n')` call yields on this stream. -/
def lineRead (s : InStream) : List Char := (readLine s).1.1

/-- Append one character to the last segment of a non-empty segment list
(used to describe `splitLines` of a string extended by a non-newline
character). -/
def appendLast : List (List Char) → Char → List (List Char)
  | [], c => [[c]]
  | [l], c => [l ++ [c]]
  | l :: ls, c => l :: appendLast ls c

/-! ### Lemmas about splitting and joining lines -/

theorem splitLines_ne_nil (s : List Char) : splitLines s ≠ [] := by
  induction s with
  | nil => simp [splitLines]
  | cons c cs ih =>
    simp only [splitLines]
    split
    · simp
    · cases h : splitLines cs with
      | nil => simp
      | cons l ls => simp

theorem noNewline_of_mem_splitLines {s l : List Char} (h : l ∈ splitLines s) :
    '\n' ∉ l := by
  induction s generalizing l with
  | nil =>
    simp only [splitLines, List.mem_singleton] at h
    subst h; simp
  | cons c cs ih =>
    simp only [splitLines] at h
    by_cases hc : c = '\n'
    · simp only [if_pos hc] at h
      rcases List.mem_cons.1 h with h | h
      · subst h; simp
      · exact ih h
    · simp only [if_neg hc] at h
      cases hs : splitLines cs with
      | nil => exact absurd hs (splitLines_ne_nil cs)
      | cons m ms =>
        rw [hs] at h
        rcases List.mem_cons.1 h with h | h
        · subst h
          intro hmem
          rcases List.mem_cons.1 hmem with h | h
          · exact hc h.symm
          · exact ih (hs ▸ List.mem_cons_self m ms) h
        · exact ih (hs ▸ List.mem_cons_of_mem m h)

theorem splitLines_of_noNewline {m : List Char} (h : '\n' ∉ m) :
    splitLines m = [m] := by
  induction m with
  | nil => rfl
  | cons c cs ih =>
    simp only [List.mem_cons, not_or] at h
    have hc : c ≠ '\n' := fun hc => h.1 hc.symm
    simp only [splitLines, if_neg hc, ih h.2]

theorem splitLines_append_newline {m : List Char} (t : List Char) (h : '\n' ∉ m) :
    splitLines (m ++ '\n' :: t) = m :: splitLines t := by
  induction m with
  | nil => simp [splitLines]
  | cons c cs ih =>
    simp only [List.mem_cons, not_or] at h
    have hc : c ≠ '\n' := fun hc => h.1 hc.symm
    rw [List.cons_append]
    simp only [splitLines, if_neg hc]
    rw [ih h.2]

theorem splitLines_joinLines {ms : List (List Char)} (hne : ms ≠ [])
    (h : ∀ m ∈ ms, '\n' ∉ m) : splitLines (joinLines ms) = ms := by
  induction ms with
  | nil => exact absurd rfl hne
  | cons m ms ih =>
    cases ms with
    | nil =>
      simp only [joinLines]
      exact splitLines_of_noNewline (h m (List.mem_singleton_self m))
    | cons m' ms' =>
      have hm : '\n' ∉ m := h m (List.mem_cons_self _ _)
      simp only [joinLines, splitLines_append_newline _ hm]
      rw [ih (by simp) (fun x hx => h x (List.mem_cons_of_mem m hx))]

/-! ### Lemmas about `hasSuffix` -/

theorem drop_length_add (t x : List Char) (k : Nat) :
    (t ++ x).drop (t.length + k) = x.drop k := List.drop_append k

theorem hasSuffix_iff {s sfx : List Char} :
    hasSuffix s sfx = true ↔ ∃ t, s = t ++ sfx := by
  unfold hasSuffix
  rw [beq_iff_eq]
  constructor
  · intro h
    refine ⟨s.take (s.length - sfx.length), ?_⟩
    conv_lhs => rw [← List.take_append_drop (s.length - sfx.length) s]
    rw [← h]
  · rintro ⟨t, rfl⟩
    have : (t ++ sfx).length - sfx.length = t.length := by
      simp [List.length_append]
    rw [this, List.drop_left]

theorem hasSuffix_of_le {s u v : List Char} (hu : hasSuffix s u = true)
    (hv : hasSuffix s v = true) (hle : u.length ≤ v.length) :
    hasSuffix v u = true := by
  rcases hasSuffix_iff.1 hu with ⟨t, rfl⟩
  rcases hasSuffix_iff.1 hv with ⟨t', h⟩
  have hlen : t.length + u.length = t'.length + v.length := by
    have := congrArg List.length h
    simpa [List.length_append] using this
  have hts : t'.length ≤ t.length := by omega
  obtain ⟨d, hd⟩ : ∃ d, t.length = t'.length + d := ⟨t.length - t'.length, by omega⟩
  have hdrop := congrArg (List.drop t.length) h
  rw [List.drop_left] at hdrop
  rw [hd, drop_length_add] at hdrop
  exact hasSuffix_iff.2 ⟨v.take d, by rw [hdrop]; exact (List.take_append_drop d v).symm⟩

theorem hasSuffix_nil_cons (c : Char) (x : List Char) :
    hasSuffix [] (c :: x) = false := by
  simp [hasSuffix]

/-! ### The loops are a filter and a map -/

theorem removeLoop_eq_filter (lines : List (List Char)) (sfx : List Char) :
    removeLoop lines sfx = lines.filter (fun l => !hasSuffix l sfx) := by
  induction lines with
  | nil => rfl
  | cons line rest ih =>
    simp only [removeLoop, List.filter_cons]
    by_cases h : hasSuffix line sfx
    · simp [h, ih]
    · simp [h, ih]

theorem removeKeysByUsername_eq_spec (keys username : List Char) :
    removeKeysByUsername keys username = removeSpec keys username := by
  unfold removeKeysByUsername removeSpec
  rw [removeLoop_eq_filter]

theorem tagLoop_eq_filter_map (lines : List (List Char)) (u : List Char) :
    tagLoop lines u =
      ((lines.map trimSpace).filter (fun l => !l.isEmpty)).map
        (fun l => l ++ ' ' :: u) := by
  induction lines with
  | nil => rfl
  | cons line rest ih =>
    simp only [tagLoop, List.map_cons, List.filter_cons]
    cases h : trimSpace line with
    | nil => simpa [h] using ih
    | cons a l => simpa [h] using ih

/-! ### Lemmas about trimming -/

theorem trimRight_cons (c : Char) (cs : List Char) :
    trimRight (c :: cs) =
      match trimRight cs with
      | [] => if isSpace c then [] else [c]
      | l => c :: l := rfl

theorem trimSpace_cons_space {c : Char} (hc : isSpace c = true) (l : List Char) :
    trimSpace (c :: l) = trimSpace l := by
  unfold trimSpace
  cases h : trimRight l with
  | nil => rw [trimRight_cons, h]; simp [hc]
  | cons a m => rw [trimRight_cons, h]; simp [trimLeft, hc]

theorem trimRight_snoc_space {c : Char} (hc : isSpace c = true) (l : List Char) :
    trimRight (l ++ [c]) = trimRight l := by
  induction l with
  | nil => simp [trimRight, hc]
  | cons a l ih => rw [List.cons_append, trimRight_cons, trimRight_cons, ih]

theorem trimSpace_snoc_space {c : Char} (hc : isSpace c = true) (l : List Char) :
    trimSpace (l ++ [c]) = trimSpace l := by
  unfold trimSpace
  rw [trimRight_snoc_space hc]

theorem trimRight_decomp (m : List Char) :
    ∃ t, m = trimRight m ++ t ∧ ∀ c ∈ t, isSpace c = true := by
  induction m with
  | nil => exact ⟨[], rfl, by simp⟩
  | cons c cs ih =>
    rcases ih with ⟨t, ht, hsp⟩
    cases h : trimRight cs with
    | nil =>
      rw [h, List.nil_append] at ht
      by_cases hc : isSpace c = true
      · refine ⟨c :: cs, ?_, ?_⟩
        · rw [trimRight_cons, h]; simp [hc]
        · intro x hx
          rcases List.mem_cons.1 hx with rfl | hx
          · exact hc
          · exact hsp x (ht ▸ hx)
      · refine ⟨t, ?_, hsp⟩
        rw [trimRight_cons, h]
        simp only [if_neg hc, List.cons_append, List.nil_append]
        rw [← ht]
    | cons a m' =>
      refine ⟨t, ?_, hsp⟩
      rw [trimRight_cons, h]
      simp only [List.cons_append]
      rw [ht, h]
      simp

/-! ### `splitLines` of a string extended on the right -/

theorem splitLines_snoc_newline (u : List Char) :
    splitLines (u ++ ['\n']) = splitLines u ++ [[]] := by
  induction u with
  | nil => simp [splitLines]
  | cons c cs ih =>
    by_cases hc : c = '\n'
    · subst hc
      rw [List.cons_append]
      simp only [splitLines, if_pos rfl, ih]
      rfl
    · rw [List.cons_append]
      simp only [splitLines, if_neg hc]
      rw [ih]
      cases hs : splitLines cs with
      | nil => exact absurd hs (splitLines_ne_nil cs)
      | cons l ls => simp

theorem splitLines_snoc {c : Char} (hc : c ≠ '\n') (u : List Char) :
    splitLines (u ++ [c]) = appendLast (splitLines u) c := by
  induction u with
  | nil => simp [splitLines, appendLast, if_neg hc]
  | cons d ds ih =>
    by_cases hd : d = '\n'
    · subst hd
      rw [List.cons_append]
      simp only [splitLines, if_pos rfl]
      rw [ih]
      cases hs : splitLines ds with
      | nil => exact absurd hs (splitLines_ne_nil ds)
      | cons l ls => simp [appendLast]
    · rw [List.cons_append]
      simp only [splitLines, if_neg hd]
      rw [ih]
      cases hs : splitLines ds with
      | nil => exact absurd hs (splitLines_ne_nil ds)
      | cons l ls =>
        cases ls with
        | nil => simp [appendLast]
        | cons l' ls' => simp [appendLast]

/-! ### `cleanLines` ignores surrounding whitespace of the whole blob -/

theorem trimSpace_singleton_space {c : Char} (hc : isSpace c = true) :
    trimSpace [c] = [] := by
  simp [trimSpace, trimRight, hc, trimLeft]

theorem filter_trim_appendLast {c : Char} (hc : isSpace c = true) (ls : List (List Char)) :
    ((appendLast ls c).map trimSpace).filter (fun l => !l.isEmpty) =
      (ls.map trimSpace).filter (fun l => !l.isEmpty) := by
  induction ls with
  | nil => simp [appendLast, trimSpace_singleton_space hc]
  | cons l ls ih =>
    cases ls with
    | nil => simp [appendLast, trimSpace_snoc_space hc]
    | cons l' ls' =>
      rw [show appendLast (l :: l' :: ls') c = l :: appendLast (l' :: ls') c from rfl]
      have key : ∀ (X Y : List (List Char)),
          (X.map trimSpace).filter (fun l => !l.isEmpty) =
            (Y.map trimSpace).filter (fun l => !l.isEmpty) →
          ((l :: X).map trimSpace).filter (fun l => !l.isEmpty) =
            ((l :: Y).map trimSpace).filter (fun l => !l.isEmpty) := by
        intro X Y hXY
        simp only [List.map_cons, List.filter_cons]
        rw [hXY]
      exact key _ _ ih

theorem cleanLines_snoc_space {c : Char} (hc : isSpace c = true) (u : List Char) :
    cleanLines (u ++ [c]) = cleanLines u := by
  unfold cleanLines
  by_cases hcn : c = '\n'
  · subst hcn
    rw [splitLines_snoc_newline]
    simp [List.filter_append, trimSpace, trimRight, trimLeft]
  · rw [splitLines_snoc hcn, filter_trim_appendLast hc]

theorem cleanLines_append_spaces (u : List Char) :
    ∀ t, (∀ c ∈ t, isSpace c = true) → cleanLines (u ++ t) = cleanLines u := by
  intro t
  induction t using List.reverseRecOn with
  | nil => intro _; simp
  | append_singleton t c ih =>
    intro h
    rw [← List.append_assoc, cleanLines_snoc_space (h c (by simp))]
    exact ih (fun x hx => h x (by simp [hx]))

theorem cleanLines_trimRight (s : List Char) :
    cleanLines (trimRight s) = cleanLines s := by
  rcases trimRight_decomp s with ⟨t, hs, hsp⟩
  conv_rhs => rw [hs]
  rw [cleanLines_append_spaces _ t hsp]

theorem cleanLines_trimLeft (s : List Char) :
    cleanLines (trimLeft s) = cleanLines s := by
  induction s with
  | nil => rfl
  | cons c cs ih =>
    by_cases hc : isSpace c = true
    · rw [show trimLeft (c :: cs) = trimLeft cs by
        simp [trimLeft, List.dropWhile_cons, hc]]
      rw [ih]
      by_cases hcn : c = '\n'
      · subst hcn
        unfold cleanLines
        simp [splitLines, trimSpace, trimRight, trimLeft]
      · unfold cleanLines
        simp only [splitLines, if_neg hcn]
        cases hs : splitLines cs with
        | nil => exact absurd hs (splitLines_ne_nil cs)
        | cons l ls =>
          simp only [List.map_cons, List.filter_cons]
          rw [trimSpace_cons_space hc]
    · rw [show trimLeft (c :: cs) = c :: cs by
        simp [trimLeft, List.dropWhile_cons, hc]]

theorem cleanLines_trimSpace (s : List Char) :
    cleanLines (trimSpace s) = cleanLines s := by
  unfold trimSpace
  rw [cleanLines_trimLeft, cleanLines_trimRight]

theorem appendUsernameToKeys_eq_spec (keys username : List Char) :
    appendUsernameToKeys keys username = tagSpec keys username := by
  unfold appendUsernameToKeys tagSpec
  rw [tagLoop_eq_filter_map]
  have h : ((splitLines (trimSpace keys)).map trimSpace).filter (fun l => !l.isEmpty) =
      cleanLines keys := by
    rw [← cleanLines_trimSpace]
    rfl
  rw [h]

/-! ### Whitespace-only blobs -/

theorem trimRight_eq_nil_of_allSpace {S : List Char} (h : ∀ c ∈ S, isSpace c = true) :
    trimRight S = [] := by
  induction S with
  | nil => rfl
  | cons c cs ih =>
    rw [trimRight_cons, ih (fun x hx => h x (List.mem_cons_of_mem c hx))]
    simp [h c (List.mem_cons_self c cs)]

theorem trimSpace_eq_nil_of_allSpace {S : List Char} (h : ∀ c ∈ S, isSpace c = true) :
    trimSpace S = [] := by
  unfold trimSpace
  rw [trimRight_eq_nil_of_allSpace h]
  rfl

theorem appendUsernameToKeys_of_allSpace {S : List Char} (h : ∀ c ∈ S, isSpace c = true)
    (I : List Char) : appendUsernameToKeys S I = [] := by
  rw [appendUsernameToKeys_eq_spec]
  unfold tagSpec
  have hc : cleanLines S = cleanLines [] := by
    have := cleanLines_append_spaces [] S h
    simpa using this
  rw [hc]
  rfl

/-! ### Idempotence of the filter -/

theorem removeSpec_idem (S I : List Char) :
    removeSpec (removeSpec S I) I = removeSpec S I := by
  unfold removeSpec
  cases hf : (splitLines S).filter (fun l => !hasSuffix l (' ' :: I)) with
  | nil =>
    simp [joinLines, splitLines, List.filter_cons, hasSuffix_nil_cons]
  | cons m ms =>
    have hmem : ∀ x ∈ m :: ms,
        x ∈ (splitLines S).filter (fun l => !hasSuffix l (' ' :: I)) := by
      rw [hf]; exact fun x hx => hx
    have hnl : ∀ x ∈ m :: ms, '\n' ∉ x := fun x hx =>
      noNewline_of_mem_splitLines (List.mem_of_mem_filter (hmem x hx))
    rw [splitLines_joinLines (by simp) hnl]
    rw [List.filter_eq_self.2 (fun x hx => List.of_mem_filter (hmem x hx))]

theorem removeKeysByUsername_idem (S I : List Char) :
    removeKeysByUsername (removeKeysByUsername S I) I = removeKeysByUsername S I := by
  rw [removeKeysByUsername_eq_spec, removeKeysByUsername_eq_spec]
  exact removeSpec_idem S I

/-! ### The confirmation prompt -/

theorem promptConfirmation_of_answer (p : Msg) {w : World} {b : Bool}
    (h : promptAnswer w.stdin = some b) :
    promptConfirmation p w =
      (Except.ok b, { w with stdout := w.stdout ++ [p], stdin := afterPrompt w.stdin }) := by
  unfold promptAnswer at h
  split at h
  · exact absurd h (by simp)
  · next he =>
    have hb := Option.some.inj h
    unfold promptConfirmation afterPrompt
    simp only [if_neg he, hb]

/-- One confirmation step, expressed through `promptAnswer`/`afterPrompt`:
the prompt goes to stdout, one read is consumed, and the result is `ok`
of the answer, or an error when the stream fails. -/
theorem promptConfirmation_eq (p : Msg) (w : World) :
    promptConfirmation p w =
      ((match promptAnswer w.stdin with
        | none => Except.error ()
        | some b => Except.ok b),
       { w with stdout := w.stdout ++ [p], stdin := afterPrompt w.stdin }) := by
  unfold promptConfirmation promptAnswer afterPrompt
  by_cases he : (readLine w.stdin).1.2 = some ReadErr.other
  · simp [he]
  · simp [he]

/-! ### The claims -/

/-- C1: `removeKeysByUsername` splits the store contents on newlines
without trimming, retains exactly the lines whose suffix is not
`" " + identity`, and rejoins the survivors with newlines in order (it is
a pure function, so it is deterministic, effect-free and total); in
particular filtering `"keyA user1\nkeyB user2"` with `"user1"` yields
exactly `"keyB user2"`. -/
theorem claim_C1_remove_is_exact_suffix_filter :
    (∀ S I : List Char, removeKeysByUsername S I = removeSpec S I) ∧
    removeKeysByUsername "keyA user1\nkeyB user2".data "user1".data
      = "keyB user2".data :=
  ⟨removeKeysByUsername_eq_spec, by decide⟩

/-- C2: `appendUsernameToKeys` splits the raw blob on newlines, trims each
line, drops lines that trim to empty, tags each survivor with
`" " + identity`, and rejoins in order (a pure, total function); a blob of
whitespace only yields the empty result. -/
theorem claim_C2_tagging_matches_spec :
    (∀ S I : List Char, appendUsernameToKeys S I = tagSpec S I) ∧
    (∀ S I : List Char, (∀ c ∈ S, isSpace c = true) → appendUsernameToKeys S I = []) :=
  ⟨appendUsernameToKeys_eq_spec, fun _ I h => appendUsernameToKeys_of_allSpace h I⟩

/-- Witness for C2: a whitespace-only blob tags to the empty block. -/
theorem claim_C2_tagging_matches_spec_witness :
    appendUsernameToKeys " \t\n ".data "alice".data = [] :=
  claim_C2_tagging_matches_spec.2 " \t\n ".data "alice".data (by decide)

/-- C5: filtering matches the exact trailing token, never a substring: a
(single) line ending in `" bob"` survives filtering for `"bobby"`, and a
line ending in `" bobby"` survives filtering for `"bob"`. -/
theorem claim_C5_exact_trailing_token_match (l : List Char) (h : '\n' ∉ l) :
    (hasSuffix l (' ' :: "bob".data) = true →
      removeKeysByUsername l "bobby".data = l) ∧
    (hasSuffix l (' ' :: "bobby".data) = true →
      removeKeysByUsername l "bob".data = l) := by
  constructor
  · intro hb
    have hnot : hasSuffix l (' ' :: "bobby".data) = false := by
      rcases Bool.eq_false_or_eq_true (hasSuffix l (' ' :: "bobby".data)) with hx | hx
      · exact absurd (hasSuffix_of_le hb hx (by decide)) (by decide)
      · exact hx
    unfold removeKeysByUsername
    rw [splitLines_of_noNewline h]
    simp [removeLoop, hnot, joinLines]
  · intro hb
    have hnot : hasSuffix l (' ' :: "bob".data) = false := by
      rcases Bool.eq_false_or_eq_true (hasSuffix l (' ' :: "bob".data)) with hx | hx
      · exact absurd (hasSuffix_of_le hx hb (by decide)) (by decide)
      · exact hx
    unfold removeKeysByUsername
    rw [splitLines_of_noNewline h]
    simp [removeLoop, hnot, joinLines]

/-- Witness for C5: the line `"key bob"` is untouched when filtering for
`"bobby"`. -/
theorem claim_C5_exact_trailing_token_match_witness :
    removeKeysByUsername "key bob".data "bobby".data = "key bob".data :=
  (claim_C5_exact_trailing_token_match "key bob".data (by decide)).1 (by decide)

/-- C8: filtering is idempotent — filtering an already-filtered store with
the same identity removes nothing further. -/
theorem claim_C8_filter_idempotent (S I : List Char) :
    removeKeysByUsername (removeKeysByUsername S I) I = removeKeysByUsername S I :=
  removeKeysByUsername_idem S I

/-- C9: `promptConfirmation` answers `true` exactly when the line read,
whitespace-trimmed and lowercased, is the literal `"yes"`, and returns an
error exactly when the underlying input stream fails (a non-`io.EOF` read
error). -/
theorem claim_C9_prompt_yes_and_errors (p : Msg) (w : World) :
    ((promptConfirmation p w).1 = Except.error () ↔ streamFails w.stdin) ∧
    ((promptConfirmation p w).1 = Except.ok true ↔
      ¬ streamFails w.stdin ∧
        (trimSpace (lineRead w.stdin)).map Char.toLower = "yes".data) := by
  unfold promptConfirmation streamFails lineRead readLine
  cases hs : splitAtNewline w.stdin.data with
  | some pr =>
    simp [hs, beq_iff_eq]
  | none =>
    cases hf : w.stdin.fails with
    | true => simp [hs, hf]
    | false => simp [hs, hf, beq_iff_eq]

/-- C10: when the stream reaches end of input before any newline
(`io.EOF`, including a completely empty stream), `promptConfirmation` does
not fail: it answers whether the bytes read before EOF, trimmed and
lowercased, equal `"yes"`. -/
theorem claim_C10_eof_is_not_an_error (p : Msg) (w : World)
    (hnl : splitAtNewline w.stdin.data = none) (hf : w.stdin.fails = false) :
    (promptConfirmation p w).1 =
      Except.ok ((trimSpace w.stdin.data).map Char.toLower == "yes".data) := by
  unfold promptConfirmation readLine
  simp [hnl, hf]

/-- Witness for C10: typing `Yes` with no final newline and letting the
stream hit EOF confirms. -/
theorem claim_C10_eof_is_not_an_error_witness :
    (promptConfirmation Msg.addPrompt
      { file := none, sshDir := false, userErr := false,
        stdin := { data := "Yes".data, fails := false }, stdout := [] }).1 =
      Except.ok true := by
  have h := claim_C10_eof_is_not_an_error Msg.addPrompt
    { file := none, sshDir := false, userErr := false,
      stdin := { data := "Yes".data, fails := false }, stdout := [] } rfl rfl
  rw [show ((trimSpace "Yes".data).map Char.toLower == "yes".data) = true by decide] at h
  exact h

/-- C6: when the fetch succeeds but the blob is whitespace/blank lines
only (including the empty blob), `run` fails with the "no public keys
found" error before showing any prompt or touching the file system: the
world is returned unchanged, whatever the action. -/
theorem claim_C6_whitespace_blob_fails_early (a₀ action username keys : List Char)
    (fetch : List Char → Except Unit (List Char)) (w : World)
    (hf : fetch username = Except.ok keys)
    (hws : ∀ c ∈ keys, isSpace c = true) :
    run [a₀, action, username] fetch w = (Except.error GoErr.noKeysFound, w) := by
  simp only [run]
  rw [hf]
  simp [trimSpace_eq_nil_of_allSpace hws]

/-- Witness for C6: an `add` whose fetched blob is whitespace-only fails
with `noKeysFound` and leaves the world untouched. -/
theorem claim_C6_whitespace_blob_fails_early_witness :
    run ["doorman".data, "add".data, "user1".data]
      (fun _ => Except.ok "  \n ".data)
      { file := none, sshDir := false, userErr := false,
        stdin := { data := [], fails := false }, stdout := [] } =
      (Except.error GoErr.noKeysFound,
       { file := none, sshDir := false, userErr := false,
         stdin := { data := [], fails := false }, stdout := [] }) :=
  claim_C6_whitespace_blob_fails_early _ _ _ _ _ _ rfl (by decide)

/-- C7: `Remove` against a missing credential file is a no-op success: it
prints a descriptive message, consumes no confirmation, and creates no
file. -/
theorem claim_C7_remove_missing_file_noop (keys username : List Char) (w : World)
    (hu : w.userErr = false) (hfile : w.file = none) :
    confirmAndRemoveKeys keys username w =
      (Except.ok (), { w with stdout := w.stdout ++ [Msg.fileMissing] }) := by
  unfold confirmAndRemoveKeys
  rw [hfile]
  simp [hu]

/-- C3: a confirmed `Add` appends `"\n" ++ tagged` to an existing
non-empty file keeping all prior bytes as a prefix and the mode unchanged;
against a missing file (confirmed twice) it creates the file with mode
`0600` and the tagged block as exact contents; against an existing empty
file it writes the tagged block with no leading separator. -/
theorem claim_C3_confirmed_add_writes (keys username : List Char) (w : World)
    (hu : w.userErr = false) :
    (∀ f : FileState, w.file = some f → f.contents ≠ [] →
      promptAnswer w.stdin = some true →
      confirmAndAddKeys keys username w =
        (Except.ok (),
          { w with
              stdin := afterPrompt w.stdin,
              stdout := w.stdout ++
                [Msg.keysToAdd (appendUsernameToKeys keys username), Msg.addPrompt],
              sshDir := true,
              file := some ⟨f.contents ++ '\n' :: appendUsernameToKeys keys username,
                f.mode⟩ })) ∧
    (w.file = none → promptAnswer w.stdin = some true →
      promptAnswer (afterPrompt w.stdin) = some true →
      confirmAndAddKeys keys username w =
        (Except.ok (),
          { w with
              stdin := afterPrompt (afterPrompt w.stdin),
              stdout := w.stdout ++
                [Msg.createPrompt,
                 Msg.keysToAdd (appendUsernameToKeys keys username), Msg.addPrompt],
              sshDir := true,
              file := some ⟨appendUsernameToKeys keys username, 0o600⟩ })) ∧
    (∀ f : FileState, w.file = some f → f.contents = [] →
      promptAnswer w.stdin = some true →
      confirmAndAddKeys keys username w =
        (Except.ok (),
          { w with
              stdin := afterPrompt w.stdin,
              stdout := w.stdout ++
                [Msg.keysToAdd (appendUsernameToKeys keys username), Msg.addPrompt],
              sshDir := true,
              file := some ⟨appendUsernameToKeys keys username, f.mode⟩ })) := by
  refine ⟨?_, ?_, ?_⟩
  · intro f hfile hne ha
    unfold confirmAndAddKeys addAfterCreateGate
    by_cases hs : w.sshDir
    · simp [promptConfirmation_eq, ha, hu, hfile, hs, hne, List.length_pos]
    · simp [promptConfirmation_eq, ha, hu, hfile, hs, hne, List.length_pos]
  · intro hfile ha1 ha2
    unfold confirmAndAddKeys addAfterCreateGate
    by_cases hs : w.sshDir
    · simp [promptConfirmation_eq, ha1, ha2, hu, hfile, hs]
    · simp [promptConfirmation_eq, ha1, ha2, hu, hfile, hs]
  · intro f hfile hc ha
    unfold confirmAndAddKeys addAfterCreateGate
    by_cases hs : w.sshDir
    · simp [promptConfirmation_eq, ha, hu, hfile, hs, hc]
    · simp [promptConfirmation_eq, ha, hu, hfile, hs, hc]

/-- Witness for C3: a twice-confirmed `Add` against a missing file creates
it with mode `0600` and exactly the tagged block. -/
theorem claim_C3_confirmed_add_writes_witness :
    confirmAndAddKeys "key1".data "alice".data
      { file := none, sshDir := false, userErr := false,
        stdin := { data := "yes\nyes\n".data, fails := false }, stdout := [] } =
      (Except.ok (),
       { file := some ⟨"key1 alice".data, 0o600⟩, sshDir := true, userErr := false,
         stdin := { data := [], fails := false },
         stdout := [Msg.createPrompt, Msg.keysToAdd "key1 alice".data,
                    Msg.addPrompt] }) := by
  have h := (claim_C3_confirmed_add_writes "key1".data "alice".data
    { file := none, sshDir := false, userErr := false,
      stdin := { data := "yes\nyes\n".data, fails := false }, stdout := [] }
    rfl).2.1 rfl rfl rfl
  exact h

/-- C4: declining any confirmation prompt — the create-file prompt, the
add prompt (whether or not the create prompt was shown first), or the
remove prompt — ends the operation as a non-error no-op: the file and the
`.ssh` directory are exactly as before, and only the abort message is
added to the trace. -/
theorem claim_C4_decline_leaves_world_unchanged (keys username : List Char) (w : World)
    (hu : w.userErr = false) :
    (w.file = none → promptAnswer w.stdin = some false →
      confirmAndAddKeys keys username w =
        (Except.ok (),
          { w with
              stdin := afterPrompt w.stdin,
              stdout := w.stdout ++ [Msg.createPrompt, Msg.aborted] })) ∧
    (w.file = none → promptAnswer w.stdin = some true →
      promptAnswer (afterPrompt w.stdin) = some false →
      confirmAndAddKeys keys username w =
        (Except.ok (),
          { w with
              stdin := afterPrompt (afterPrompt w.stdin),
              stdout := w.stdout ++
                [Msg.createPrompt,
                 Msg.keysToAdd (appendUsernameToKeys keys username),
                 Msg.addPrompt, Msg.aborted] })) ∧
    (∀ f : FileState, w.file = some f → promptAnswer w.stdin = some false →
      confirmAndAddKeys keys username w =
        (Except.ok (),
          { w with
              stdin := afterPrompt w.stdin,
              stdout := w.stdout ++
                [Msg.keysToAdd (appendUsernameToKeys keys username),
                 Msg.addPrompt, Msg.aborted] })) ∧
    (∀ f : FileState, w.file = some f → promptAnswer w.stdin = some false →
      confirmAndRemoveKeys keys username w =
        (Except.ok (),
          { w with
              stdin := afterPrompt w.stdin,
              stdout := w.stdout ++
                [Msg.keysToRemove (appendUsernameToKeys keys username),
                 Msg.removePrompt, Msg.aborted] })) := by
  refine ⟨?_, ?_, ?_, ?_⟩
  · intro hfile ha
    unfold confirmAndAddKeys
    simp [promptConfirmation_eq, ha, hu, hfile]
  · intro hfile ha1 ha2
    unfold confirmAndAddKeys addAfterCreateGate
    simp [promptConfirmation_eq, ha1, ha2, hu, hfile]
  · intro f hfile ha
    unfold confirmAndAddKeys addAfterCreateGate
    simp [promptConfirmation_eq, ha, hu, hfile]
  · intro f hfile ha
    unfold confirmAndRemoveKeys
    simp [promptConfirmation_eq, ha, hu, hfile]

/-- Witness for C4: answering `no` to the remove prompt leaves the file
untouched and succeeds. -/
theorem claim_C4_decline_leaves_world_unchanged_witness :
    confirmAndRemoveKeys "key1".data "user1".data
      { file := some ⟨"key1 user1".data, 0o600⟩, sshDir := true, userErr := false,
        stdin := { data := "no\n".data, fails := false }, stdout := [] } =
      (Except.ok (),
       { file := some ⟨"key1 user1".data, 0o600⟩, sshDir := true, userErr := false,
         stdin := { data := [], fails := false },
         stdout := [Msg.keysToRemove "key1 user1".data,
                    Msg.removePrompt, Msg.aborted] }) := by
  have h := (claim_C4_decline_leaves_world_unchanged "key1".data "user1".data
    { file := some ⟨"key1 user1".data, 0o600⟩, sshDir := true, userErr := false,
      stdin := { data := "no\n".data, fails := false }, stdout := [] }
    rfl).2.2.2 ⟨"key1 user1".data, 0o600⟩ rfl rfl
  exact h

/-- Witness for C7: removing when no file exists reports the no-op and
changes nothing but the message trace. -/
theorem claim_C7_remove_missing_file_noop_witness :
    confirmAndRemoveKeys "key1".data "user1".data
      { file := none, sshDir := true, userErr := false,
        stdin := { data := "yes\n".data, fails := false }, stdout := [] } =
      (Except.ok (),
       { file := none, sshDir := true, userErr := false,
         stdin := { data := "yes\n".data, fails := false },
         stdout := [Msg.fileMissing] }) :=
  claim_C7_remove_missing_file_noop _ _ _ rfl rfl

end Doorman
